import Mathlib

/-!
Verification of the analysis-run orchestration engine described in the
repository's design documents (spec.md, docs/architecture/system-design.md,
docs/api/api-specification.md) and of the frontend code in
frontend/src/pages/Analysis.tsx.

The repository contains the design documentation and a mock frontend; the
orchestration engine itself (Dispatcher, Integrator, ProviderClient,
ProgressPublisher) is specified in the documents but not implemented in the
sources.  Those components are therefore modelled from the spec below, each
such definition carrying a doc comment starting with `Modelled from the
spec:`.  The frontend functions `startAnalysis` and `handleSubmit`
(frontend/src/pages/Analysis.tsx) are translated directly from the source.
-/

/-! ## Worker kinds -/

/-- Modelled from the spec: the closed enumeration of worker kinds
(keyword, content, technical, geo, link); the Worker implementations are
missing from the sources. -/
inductive WorkerKind where
  | keyword
  | content
  | technical
  | geo
  | link
deriving DecidableEq

/-- Position of a kind in the spec's enumeration order
`keyword > content > technical > geo > link`. -/
def WorkerKind.idx : WorkerKind → Nat
  | .keyword => 0
  | .content => 1
  | .technical => 2
  | .geo => 3
  | .link => 4

/-- The requested-worker enumeration order used by the Dispatcher and the
Integrator tie-break. -/
def kindOrder : List WorkerKind :=
  [.keyword, .content, .technical, .geo, .link]

/-! ## Insights and action-plan items -/

/-- Modelled from the spec: one candidate recommendation inside an Insight,
with (impact, effort) scores supplied by the producing Worker. -/
structure Recommendation where
  category : String
  title : String
  description : String
  impact : Int
  effort : Int
deriving DecidableEq

/-- Modelled from the spec: the structured payload produced by a successful
Worker, tagged with its kind. -/
structure Insight where
  kind : WorkerKind
  recs : List Recommendation
deriving DecidableEq

/-- Modelled from the spec: an item of the ActionPlan
`{category, impact, effort, title, description}` tagged with the producing
worker kind. -/
structure ActionPlanItem where
  category : String
  title : String
  description : String
  impact : Int
  effort : Int
  kind : WorkerKind
deriving DecidableEq

/-- The spec's priority rule `priority_score = impact - 0.5*effort`. -/
def priorityScore (a : ActionPlanItem) : ℚ :=
  (a.impact : ℚ) - (1 / 2) * (a.effort : ℚ)

/-! ## Integrator -/

/-- Turn one recommendation of an Insight of kind `k` into a candidate
ActionPlan item. -/
def toItem (k : WorkerKind) (r : Recommendation) : ActionPlanItem :=
  ⟨r.category, r.title, r.description, r.impact, r.effort, k⟩

/-- Modelled from the spec: flatten each Insight's recommendations into
candidate items, in the order the Insights are handed over (requested-worker
enumeration order). -/
def flattenInsights (insights : List Insight) : List ActionPlanItem :=
  insights.flatMap (fun ins => ins.recs.map (toItem ins.kind))

/-- Two items are duplicates when they share category and title. -/
def sameKey (a b : ActionPlanItem) : Bool :=
  a.category == b.category && a.title == b.title

/-- Modelled from the spec: merge one candidate into the accumulated list,
keeping the highest-impact variant of duplicates (same category+title). -/
def mergeInto (acc : List ActionPlanItem) (x : ActionPlanItem) :
    List ActionPlanItem :=
  if acc.any (fun y => sameKey y x) then
    acc.map (fun y => if sameKey y x then (if y.impact < x.impact then x else y) else y)
  else acc ++ [x]

/-- Modelled from the spec: duplicate merging over the whole candidate
list, preserving first-insertion positions. -/
def mergeDups (l : List ActionPlanItem) : List ActionPlanItem :=
  l.foldl mergeInto []

/-- The Integrator's ordering: higher priority score first; ties broken by
the worker-kind enumeration order. -/
def planLE (a b : ActionPlanItem) : Prop :=
  priorityScore b < priorityScore a ∨
    (priorityScore a = priorityScore b ∧ a.kind.idx ≤ b.kind.idx)

instance : DecidableRel planLE := fun a b => by
  unfold planLE; exact inferInstance

instance : IsTotal ActionPlanItem planLE := by
  constructor
  intro a b
  rcases lt_trichotomy (priorityScore a) (priorityScore b) with h | h | h
  · exact Or.inr (Or.inl h)
  · rcases le_total a.kind.idx b.kind.idx with hi | hi
    · exact Or.inl (Or.inr ⟨h, hi⟩)
    · exact Or.inr (Or.inr ⟨h.symm, hi⟩)
  · exact Or.inl (Or.inl h)

instance : IsTrans ActionPlanItem planLE := by
  constructor
  intro a b c hab hbc
  rcases hab with h1 | ⟨e1, i1⟩ <;> rcases hbc with h2 | ⟨e2, i2⟩
  · exact Or.inl (lt_trans h2 h1)
  · exact Or.inl (by rw [← e2]; exact h1)
  · exact Or.inl (by rw [e1]; exact h2)
  · exact Or.inr ⟨e1.trans e2, le_trans i1 i2⟩

/-- Modelled from the spec: the Integrator (missing from the sources).
Flattens the Insights' recommendations, merges duplicates keeping the
highest-impact variant, and sorts by descending `priority_score` with ties
broken by worker-kind enumeration order. -/
def integrate (insights : List Insight) : List ActionPlanItem :=
  List.insertionSort planLE (mergeDups (flattenInsights insights))

/-! ## Theorems: Integrator ordering (C2) -/

/-- C2: for every Insight set handed to the Integrator, the resulting
ActionPlan is sorted in descending order of
`priority_score = impact - 0.5*effort`, and any two items with equal
priority score appear in worker-kind order (keyword before content before
technical before geo before link). -/
theorem integrate_sorted_by_priority (insights : List Insight) :
    List.Pairwise
      (fun a b => priorityScore b ≤ priorityScore a ∧
        (priorityScore a = priorityScore b → a.kind.idx ≤ b.kind.idx))
      (integrate insights) := by
  have h := List.sorted_insertionSort planLE (mergeDups (flattenInsights insights))
  refine List.Pairwise.imp ?_ h
  intro a b hab
  rcases hab with h1 | ⟨e1, i1⟩
  · refine ⟨le_of_lt h1, fun e => ?_⟩
    exact absurd h1 (by rw [e]; exact lt_irrefl _)
  · exact ⟨le_of_eq e1.symm, fun _ => i1⟩

/-! ## Run and task state machine -/

/-- Modelled from the spec: per-WorkerTask states
`Queued -> Running -> Completed | Failed`, with `Cancelled` reachable from
`Queued` or `Running`. -/
inductive TaskStatus where
  | queued
  | running
  | completed
  | failed
  | cancelled
deriving DecidableEq

/-- A WorkerTask status is terminal when it is Completed, Failed or
Cancelled; a WorkerTask never transitions out of a terminal status. -/
def TaskStatus.isTerminal : TaskStatus → Bool
  | .completed => true
  | .failed => true
  | .cancelled => true
  | _ => false

/-- Modelled from the spec: per-Run states
`Pending -> Running -> Integrating -> Completed | Failed`, with `Cancelled`
reachable from `Pending`, `Running` or `Integrating`. -/
inductive RunStatus where
  | pending
  | running
  | integrating
  | completed
  | failed
  | cancelled
deriving DecidableEq

/-- A Run status is terminal when it is Completed, Failed or Cancelled. -/
def RunStatus.isTerminal : RunStatus → Bool
  | .completed => true
  | .failed => true
  | .cancelled => true
  | _ => false

/-- Modelled from the spec: the mutable record of one Worker's execution
within one Run (the WorkerTask), reduced to the fields the claims are
about: its status and its attached Insight. -/
structure WorkerTask where
  status : TaskStatus
  result : Option Insight
deriving DecidableEq

/-- The kinds of progress events of the spec's ProgressPublisher. -/
inductive EventKind where
  | agentProgress
  | agentCompleted
  | runCompleted
  | runError
deriving DecidableEq

/-- Modelled from the spec: an append-only, sequence-numbered progress
event of one Run. -/
structure ProgressEvent where
  ekind : EventKind
  seq : Nat
deriving DecidableEq

/-- A `run_completed` or `run_error` event. -/
def TermEvent (e : ProgressEvent) : Prop :=
  e.ekind = .runCompleted ∨ e.ekind = .runError

instance (e : ProgressEvent) : Decidable (TermEvent e) := by
  unfold TermEvent; exact inferInstance

/-- Modelled from the spec: the RunState owned by the Dispatcher — the
Run's status, its requested worker kinds, one WorkerTask per kind, the
ActionPlan once integrated, and the emitted ProgressEvent log. -/
structure RunState where
  status : RunStatus
  requested : List WorkerKind
  tasks : WorkerKind → WorkerTask
  plan : Option (List ActionPlanItem)
  events : List ProgressEvent
  nextSeq : Nat

/-- Modelled from the spec: the state created on submission — Run
`Pending`, one `Queued` WorkerTask per requested kind, no plan, empty
event log. -/
def initRun (requested : List WorkerKind) : RunState :=
  { status := .pending
    requested := requested
    tasks := fun _ => ⟨.queued, none⟩
    plan := none
    events := []
    nextSeq := 0 }

/-- Replace the Run status. -/
def setStatus (s : RunState) (st : RunStatus) : RunState :=
  { s with status := st }

/-- Replace the WorkerTask of one kind. -/
def setTask (s : RunState) (k : WorkerKind) (t : WorkerTask) : RunState :=
  { s with tasks := fun k2 => if k2 = k then t else s.tasks k2 }

/-- Append one ProgressEvent carrying the next sequence number. -/
def emit (s : RunState) (e : EventKind) : RunState :=
  { s with events := s.events ++ [⟨e, s.nextSeq⟩], nextSeq := s.nextSeq + 1 }

/-- Modelled from the spec: the successful Insights of a Run, collected in
requested-worker enumeration order. -/
def collectInsights (s : RunState) : List Insight :=
  kindOrder.filterMap fun k =>
    if k ∈ s.requested then (s.tasks k).result else none

/-- Modelled from the spec: the state after the Integrating step succeeds —
Run `Completed`, ActionPlan attached, `run_completed` emitted. -/
def finalizeOkTarget (s : RunState) : RunState :=
  emit { s with status := .completed, plan := some (integrate (collectInsights s)) }
    .runCompleted

/-- Modelled from the spec: the state after an all-failed Run finalizes —
Run `Failed`, `run_error` emitted. -/
def finalizeFailTarget (s : RunState) : RunState :=
  emit { s with status := .failed } .runError

/-- Modelled from the spec: the effect of an explicit cancel signal — the
Run becomes `Cancelled` and every non-terminal WorkerTask becomes
`Cancelled`. -/
def cancelRun (s : RunState) : RunState :=
  { s with status := .cancelled
           tasks := fun k =>
             if (s.tasks k).status.isTerminal then s.tasks k
             else { s.tasks k with status := .cancelled } }

/-- Modelled from the spec: the Dispatcher's transition relation for one
Run (spec section 4.3): launch, per-task start/progress/completion/failure
with `agent_completed` events, the join barrier, the Integrating step's
finalization, and cancellation. -/
inductive Step : RunState → RunState → Prop where
  | start (s : RunState) (h : s.status = .pending) :
      Step s (setStatus s .running)
  | taskStart (s : RunState) (k : WorkerKind) (hrun : s.status = .running)
      (hk : k ∈ s.requested) (hq : (s.tasks k).status = .queued) :
      Step s (setTask s k ⟨.running, none⟩)
  | taskProgress (s : RunState) (k : WorkerKind) (hrun : s.status = .running)
      (hk : k ∈ s.requested) (ht : (s.tasks k).status = .running) :
      Step s (emit s .agentProgress)
  | taskComplete (s : RunState) (k : WorkerKind) (ins : Insight)
      (hrun : s.status = .running) (hk : k ∈ s.requested)
      (ht : (s.tasks k).status = .running) (hins : ins.kind = k) :
      Step s (emit (setTask s k ⟨.completed, some ins⟩) .agentCompleted)
  | taskFail (s : RunState) (k : WorkerKind) (hrun : s.status = .running)
      (hk : k ∈ s.requested) (ht : (s.tasks k).status = .running) :
      Step s (emit (setTask s k ⟨.failed, none⟩) .agentCompleted)
  | join (s : RunState) (hrun : s.status = .running)
      (hall : ∀ k ∈ s.requested,
        (s.tasks k).status = .completed ∨ (s.tasks k).status = .failed) :
      Step s (setStatus s .integrating)
  | finalizeOk (s : RunState) (hint : s.status = .integrating)
      (hsucc : s.requested = [] ∨
        ∃ k ∈ s.requested, (s.tasks k).status = .completed) :
      Step s (finalizeOkTarget s)
  | finalizeFail (s : RunState) (hint : s.status = .integrating)
      (hne : s.requested ≠ [])
      (hfail : ∀ k ∈ s.requested, (s.tasks k).status = .failed) :
      Step s (finalizeFailTarget s)
  | cancel (s : RunState) (h : s.status.isTerminal = false) :
      Step s (cancelRun s)

/-- Reachability in zero or more Dispatcher steps. -/
def Reaches : RunState → RunState → Prop :=
  Relation.ReflTransGen Step

/-! ## Basic step lemmas -/

/-- No Dispatcher step leaves a terminal Run status. -/
theorem step_src_not_terminal {s t : RunState} (h : Step s t) :
    s.status.isTerminal = false := by
  cases h with
  | start h => rw [h]; rfl
  | taskStart k hrun hk hq => rw [hrun]; rfl
  | taskProgress k hrun hk ht => rw [hrun]; rfl
  | taskComplete k ins hrun hk ht hins => rw [hrun]; rfl
  | taskFail k hrun hk ht => rw [hrun]; rfl
  | join hrun hall => rw [hrun]; rfl
  | finalizeOk hint hsucc => rw [hint]; rfl
  | finalizeFail hint hne hfail => rw [hint]; rfl
  | cancel h => exact h

/-- A state with a terminal Run status has no successors: every state
reachable from it is itself. -/
theorem reaches_of_terminal {s t : RunState}
    (hterm : s.status.isTerminal = true) (h : Reaches s t) : t = s := by
  induction h using Relation.ReflTransGen.head_induction_on with
  | refl => rfl
  | head hstep _ _ =>
      exact absurd hterm (by rw [step_src_not_terminal hstep]; simp)

/-- Dispatcher steps never change the requested worker set. -/
theorem step_requested {s t : RunState} (h : Step s t) :
    t.requested = s.requested := by
  cases h <;> rfl

/-- Reachability never changes the requested worker set. -/
theorem reaches_requested {s t : RunState} (h : Reaches s t) :
    t.requested = s.requested := by
  induction h with
  | refl => rfl
  | tail _ hstep ih => rw [step_requested hstep]; exact ih

/-! ## Projection lemmas for the state updates -/

@[simp] theorem setStatus_status (s : RunState) (st : RunStatus) :
    (setStatus s st).status = st := rfl
@[simp] theorem setStatus_requested (s : RunState) (st : RunStatus) :
    (setStatus s st).requested = s.requested := rfl
@[simp] theorem setStatus_tasks (s : RunState) (st : RunStatus) :
    (setStatus s st).tasks = s.tasks := rfl
@[simp] theorem setStatus_plan (s : RunState) (st : RunStatus) :
    (setStatus s st).plan = s.plan := rfl
@[simp] theorem setStatus_events (s : RunState) (st : RunStatus) :
    (setStatus s st).events = s.events := rfl
@[simp] theorem setStatus_nextSeq (s : RunState) (st : RunStatus) :
    (setStatus s st).nextSeq = s.nextSeq := rfl

@[simp] theorem setTask_status (s : RunState) (k : WorkerKind) (t : WorkerTask) :
    (setTask s k t).status = s.status := rfl
@[simp] theorem setTask_requested (s : RunState) (k : WorkerKind) (t : WorkerTask) :
    (setTask s k t).requested = s.requested := rfl
@[simp] theorem setTask_plan (s : RunState) (k : WorkerKind) (t : WorkerTask) :
    (setTask s k t).plan = s.plan := rfl
@[simp] theorem setTask_events (s : RunState) (k : WorkerKind) (t : WorkerTask) :
    (setTask s k t).events = s.events := rfl
@[simp] theorem setTask_nextSeq (s : RunState) (k : WorkerKind) (t : WorkerTask) :
    (setTask s k t).nextSeq = s.nextSeq := rfl
@[simp] theorem setTask_tasks (s : RunState) (k : WorkerKind) (t : WorkerTask)
    (k2 : WorkerKind) :
    (setTask s k t).tasks k2 = if k2 = k then t else s.tasks k2 := rfl

@[simp] theorem emit_status (s : RunState) (e : EventKind) :
    (emit s e).status = s.status := rfl
@[simp] theorem emit_requested (s : RunState) (e : EventKind) :
    (emit s e).requested = s.requested := rfl
@[simp] theorem emit_tasks (s : RunState) (e : EventKind) :
    (emit s e).tasks = s.tasks := rfl
@[simp] theorem emit_plan (s : RunState) (e : EventKind) :
    (emit s e).plan = s.plan := rfl
@[simp] theorem emit_events (s : RunState) (e : EventKind) :
    (emit s e).events = s.events ++ [⟨e, s.nextSeq⟩] := rfl
@[simp] theorem emit_nextSeq (s : RunState) (e : EventKind) :
    (emit s e).nextSeq = s.nextSeq + 1 := rfl

@[simp] theorem finalizeOkTarget_status (s : RunState) :
    (finalizeOkTarget s).status = .completed := rfl
@[simp] theorem finalizeOkTarget_requested (s : RunState) :
    (finalizeOkTarget s).requested = s.requested := rfl
@[simp] theorem finalizeOkTarget_tasks (s : RunState) :
    (finalizeOkTarget s).tasks = s.tasks := rfl
@[simp] theorem finalizeOkTarget_plan (s : RunState) :
    (finalizeOkTarget s).plan = some (integrate (collectInsights s)) := rfl
@[simp] theorem finalizeOkTarget_events (s : RunState) :
    (finalizeOkTarget s).events = s.events ++ [⟨.runCompleted, s.nextSeq⟩] := rfl
@[simp] theorem finalizeOkTarget_nextSeq (s : RunState) :
    (finalizeOkTarget s).nextSeq = s.nextSeq + 1 := rfl

@[simp] theorem finalizeFailTarget_status (s : RunState) :
    (finalizeFailTarget s).status = .failed := rfl
@[simp] theorem finalizeFailTarget_requested (s : RunState) :
    (finalizeFailTarget s).requested = s.requested := rfl
@[simp] theorem finalizeFailTarget_tasks (s : RunState) :
    (finalizeFailTarget s).tasks = s.tasks := rfl
@[simp] theorem finalizeFailTarget_plan (s : RunState) :
    (finalizeFailTarget s).plan = s.plan := rfl
@[simp] theorem finalizeFailTarget_events (s : RunState) :
    (finalizeFailTarget s).events = s.events ++ [⟨.runError, s.nextSeq⟩] := rfl
@[simp] theorem finalizeFailTarget_nextSeq (s : RunState) :
    (finalizeFailTarget s).nextSeq = s.nextSeq + 1 := rfl

@[simp] theorem cancelRun_status (s : RunState) :
    (cancelRun s).status = .cancelled := rfl
@[simp] theorem cancelRun_requested (s : RunState) :
    (cancelRun s).requested = s.requested := rfl
@[simp] theorem cancelRun_plan (s : RunState) :
    (cancelRun s).plan = s.plan := rfl
@[simp] theorem cancelRun_events (s : RunState) :
    (cancelRun s).events = s.events := rfl
@[simp] theorem cancelRun_nextSeq (s : RunState) :
    (cancelRun s).nextSeq = s.nextSeq := rfl
@[simp] theorem cancelRun_tasks (s : RunState) (k : WorkerKind) :
    (cancelRun s).tasks k =
      if (s.tasks k).status.isTerminal then s.tasks k
      else { s.tasks k with status := .cancelled } := rfl

@[simp] theorem collectInsights_setStatus (s : RunState) (st : RunStatus) :
    collectInsights (setStatus s st) = collectInsights s := rfl
@[simp] theorem collectInsights_emit (s : RunState) (e : EventKind) :
    collectInsights (emit s e) = collectInsights s := rfl
@[simp] theorem collectInsights_finalizeOkTarget (s : RunState) :
    collectInsights (finalizeOkTarget s) = collectInsights s := rfl

/-- A non-terminal Run status is Pending, Running or Integrating. -/
theorem not_terminal_cases {st : RunStatus} (h : st.isTerminal = false) :
    st ≠ .completed ∧ st ≠ .failed ∧ st ≠ .cancelled := by
  cases st <;> simp_all [RunStatus.isTerminal]

/-! ## The Dispatcher invariant -/

/-- The inductive invariant of the Dispatcher state machine: event
sequencing and terminal-event placement, the relation between the Run
status and its WorkerTask statuses, and the finalization facts recorded in
terminal states. -/
structure DispatcherInv (s : RunState) : Prop where
  seqBound : ∀ e ∈ s.events, e.seq < s.nextSeq
  seqSorted : s.events.Pairwise fun a b => a.seq < b.seq
  termLast : ∀ e ∈ s.events.dropLast, ¬ TermEvent e
  termOnly : s.status ≠ .completed → s.status ≠ .failed →
    ∀ e ∈ s.events, ¬ TermEvent e
  pendingTasks : s.status = .pending → ∀ k, (s.tasks k).status = .queued
  intTasks : s.status = .integrating ∨ s.status = .completed ∨ s.status = .failed →
    ∀ k ∈ s.requested, (s.tasks k).status = .completed ∨ (s.tasks k).status = .failed
  planNone : s.status ≠ .completed → s.plan = none
  completedInv : s.status = .completed →
    s.plan = some (integrate (collectInsights s)) ∧
      (s.requested = [] ∨ ∃ k ∈ s.requested, (s.tasks k).status = .completed)
  failedInv : s.status = .failed →
    s.requested ≠ [] ∧ ∀ k ∈ s.requested, (s.tasks k).status = .failed

/-- The submission state satisfies the invariant. -/
theorem inv_init (req : List WorkerKind) : DispatcherInv (initRun req) := by
  refine ⟨?_, ?_, ?_, ?_, ?_, ?_, ?_, ?_, ?_⟩ <;>
    simp [initRun]

/-- Appending one event with the next sequence number preserves the
sequencing invariants. -/
theorem seq_emit {l : List ProgressEvent} {n : Nat}
    (hb : ∀ e ∈ l, e.seq < n)
    (hp : l.Pairwise fun a b => a.seq < b.seq) (e : EventKind) :
    (∀ x ∈ l ++ [ProgressEvent.mk e n], x.seq < n + 1) ∧
      ((l ++ [ProgressEvent.mk e n]).Pairwise fun a b => a.seq < b.seq) := by
  constructor
  · intro x hx
    rcases List.mem_append.mp hx with hx | hx
    · exact Nat.lt_succ_of_lt (hb x hx)
    · simp at hx
      rw [hx]
      exact Nat.lt_succ_self n
  · rw [List.pairwise_append]
    refine ⟨hp, by simp, ?_⟩
    intro a ha b hbmem
    simp at hbmem
    rw [hbmem]
    exact hb a ha

/-- Every Dispatcher step preserves the invariant. -/
theorem inv_step {s t : RunState} (hs : DispatcherInv s) (h : Step s t) :
    DispatcherInv t := by
  cases h with
  | start hp =>
      refine ⟨hs.seqBound, hs.seqSorted, hs.termLast, ?_, ?_, ?_, ?_, ?_, ?_⟩
      · intro _ _
        exact hs.termOnly (by simp [hp]) (by simp [hp])
      · intro hp2; simp at hp2
      · intro hor; simp at hor
      · intro _; exact hs.planNone (by simp [hp])
      · intro hc; simp at hc
      · intro hc; simp at hc
  | taskStart k hrun hk hq =>
      refine ⟨hs.seqBound, hs.seqSorted, hs.termLast, ?_, ?_, ?_, ?_, ?_, ?_⟩
      · intro _ _
        exact hs.termOnly (by simp [hrun]) (by simp [hrun])
      · intro hp2; simp [hrun] at hp2
      · intro hor; simp [hrun] at hor
      · intro _; exact hs.planNone (by simp [hrun])
      · intro hc; simp [hrun] at hc
      · intro hc; simp [hrun] at hc
  | taskProgress k hrun hk ht =>
      have hq2 := seq_emit hs.seqBound hs.seqSorted .agentProgress
      refine ⟨hq2.1, hq2.2, ?_, ?_, ?_, ?_, ?_, ?_, ?_⟩
      · intro e he
        rw [emit_events, List.dropLast_concat] at he
        exact hs.termOnly (by simp [hrun]) (by simp [hrun]) e he
      · intro _ _ e he
        rw [emit_events] at he
        rcases List.mem_append.mp he with h1 | h1
        · exact hs.termOnly (by simp [hrun]) (by simp [hrun]) e h1
        · simp at h1
          rw [h1]
          simp [TermEvent]
      · intro hp2; simp [hrun] at hp2
      · intro hor; simp [hrun] at hor
      · intro _; exact hs.planNone (by simp [hrun])
      · intro hc; simp [hrun] at hc
      · intro hc; simp [hrun] at hc
  | taskComplete k ins hrun hk ht hins =>
      have hq2 := seq_emit hs.seqBound hs.seqSorted .agentCompleted
      refine ⟨hq2.1, hq2.2, ?_, ?_, ?_, ?_, ?_, ?_, ?_⟩
      · intro e he
        rw [emit_events, setTask_events, List.dropLast_concat] at he
        exact hs.termOnly (by simp [hrun]) (by simp [hrun]) e he
      · intro _ _ e he
        rw [emit_events, setTask_events] at he
        rcases List.mem_append.mp he with h1 | h1
        · exact hs.termOnly (by simp [hrun]) (by simp [hrun]) e h1
        · simp at h1
          rw [h1]
          simp [TermEvent]
      · intro hp2; simp [hrun] at hp2
      · intro hor; simp [hrun] at hor
      · intro _; exact hs.planNone (by simp [hrun])
      · intro hc; simp [hrun] at hc
      · intro hc; simp [hrun] at hc
  | taskFail k hrun hk ht =>
      have hq2 := seq_emit hs.seqBound hs.seqSorted .agentCompleted
      refine ⟨hq2.1, hq2.2, ?_, ?_, ?_, ?_, ?_, ?_, ?_⟩
      · intro e he
        rw [emit_events, setTask_events, List.dropLast_concat] at he
        exact hs.termOnly (by simp [hrun]) (by simp [hrun]) e he
      · intro _ _ e he
        rw [emit_events, setTask_events] at he
        rcases List.mem_append.mp he with h1 | h1
        · exact hs.termOnly (by simp [hrun]) (by simp [hrun]) e h1
        · simp at h1
          rw [h1]
          simp [TermEvent]
      · intro hp2; simp [hrun] at hp2
      · intro hor; simp [hrun] at hor
      · intro _; exact hs.planNone (by simp [hrun])
      · intro hc; simp [hrun] at hc
      · intro hc; simp [hrun] at hc
  | join hrun hall =>
      refine ⟨hs.seqBound, hs.seqSorted, hs.termLast, ?_, ?_, ?_, ?_, ?_, ?_⟩
      · intro _ _
        exact hs.termOnly (by simp [hrun]) (by simp [hrun])
      · intro hp2; simp at hp2
      · intro _ k hk; exact hall k hk
      · intro _; exact hs.planNone (by simp [hrun])
      · intro hc; simp at hc
      · intro hc; simp at hc
  | finalizeOk hint hsucc =>
      have hq2 := seq_emit hs.seqBound hs.seqSorted .runCompleted
      refine ⟨hq2.1, hq2.2, ?_, ?_, ?_, ?_, ?_, ?_, ?_⟩
      · intro e he
        rw [finalizeOkTarget_events, List.dropLast_concat] at he
        exact hs.termOnly (by simp [hint]) (by simp [hint]) e he
      · intro hc _
        exact absurd (finalizeOkTarget_status s) hc
      · intro hp2; simp at hp2
      · intro _ k hk
        exact hs.intTasks (Or.inl hint) k hk
      · intro hc
        exact absurd (finalizeOkTarget_status s) hc
      · intro _
        exact ⟨rfl, hsucc⟩
      · intro hc; simp at hc
  | finalizeFail hint hne hfail =>
      have hq2 := seq_emit hs.seqBound hs.seqSorted .runError
      refine ⟨hq2.1, hq2.2, ?_, ?_, ?_, ?_, ?_, ?_, ?_⟩
      · intro e he
        rw [finalizeFailTarget_events, List.dropLast_concat] at he
        exact hs.termOnly (by simp [hint]) (by simp [hint]) e he
      · intro _ hc
        exact absurd (finalizeFailTarget_status s) hc
      · intro hp2; simp at hp2
      · intro _ k hk
        exact Or.inr (hfail k hk)
      · intro _
        exact hs.planNone (by simp [hint])
      · intro hc; simp at hc
      · intro _
        exact ⟨hne, hfail⟩
  | cancel hnt =>
      obtain ⟨hnc, hnf, _⟩ := not_terminal_cases hnt
      refine ⟨hs.seqBound, hs.seqSorted, hs.termLast, ?_, ?_, ?_, ?_, ?_, ?_⟩
      · intro _ _
        exact hs.termOnly hnc hnf
      · intro hp2; simp at hp2
      · intro hor; simp at hor
      · intro _; exact hs.planNone hnc
      · intro hc; simp at hc
      · intro hc; simp at hc

/-- The invariant holds in every state reachable from a state satisfying
it. -/
theorem inv_reaches {s t : RunState} (hs : DispatcherInv s)
    (h : Reaches s t) : DispatcherInv t := by
  induction h with
  | refl => exact hs
  | tail _ hstep ih => exact inv_step ih hstep

/-- The invariant holds in every reachable state of a Run. -/
theorem inv_reachable {req : List WorkerKind} {s : RunState}
    (h : Reaches (initRun req) s) : DispatcherInv s :=
  inv_reaches (inv_init req) h

/-! ## Theorems: run/task lifecycle claims -/

/-- C3: in every reachable state of a Run, if the Run's status is terminal
(Completed or Failed) without having been explicitly Cancelled, then every
requested WorkerTask is terminal (Completed or Failed). -/
theorem run_terminal_implies_tasks_terminal {req : List WorkerKind}
    {s : RunState} (h : Reaches (initRun req) s)
    (hterm : s.status = .completed ∨ s.status = .failed) :
    ∀ k ∈ s.requested,
      (s.tasks k).status = .completed ∨ (s.tasks k).status = .failed :=
  (inv_reachable h).intTasks (Or.inr hterm)

/-- C1: for a Run with at least one requested WorkerTask, a terminal
non-cancelled status obeys the decision rule — Completed iff at least one
requested WorkerTask succeeded, Failed iff every requested WorkerTask
failed; and once every requested WorkerTask is terminal, the Run can
finalize to exactly the status the rule prescribes. -/
theorem run_final_status_rule {req : List WorkerKind} {s : RunState}
    (h : Reaches (initRun req) s) (hne : s.requested ≠ []) :
    ((s.status = .completed ∨ s.status = .failed) →
      ((s.status = .completed ↔
          ∃ k ∈ s.requested, (s.tasks k).status = .completed) ∧
        (s.status = .failed ↔
          ∀ k ∈ s.requested, (s.tasks k).status = .failed))) ∧
    (s.status = .running →
      (∀ k ∈ s.requested,
        (s.tasks k).status = .completed ∨ (s.tasks k).status = .failed) →
      ((∃ k ∈ s.requested, (s.tasks k).status = .completed) →
          ∃ t, Reaches s t ∧ t.status = .completed) ∧
      ((∀ k ∈ s.requested, (s.tasks k).status = .failed) →
          ∃ t, Reaches s t ∧ t.status = .failed)) := by
  have hi := inv_reachable h
  constructor
  · intro hterm
    constructor
    · constructor
      · intro hc
        rcases (hi.completedInv hc).2 with he | he
        · exact absurd he hne
        · exact he
      · rintro ⟨k, hk, hks⟩
        rcases hterm with hc | hf
        · exact hc
        · rw [(hi.failedInv hf).2 k hk] at hks
          exact absurd hks (by simp)
    · constructor
      · intro hf
        exact (hi.failedInv hf).2
      · intro hall
        rcases hterm with hc | hf
        · rcases (hi.completedInv hc).2 with he | ⟨k, hk, hks⟩
          · exact absurd he hne
          · rw [hall k hk] at hks
            exact absurd hks (by simp)
        · exact hf
  · intro hrun hall
    have hj : Step s (setStatus s .integrating) := Step.join s hrun hall
    constructor
    · rintro ⟨k, hk, hks⟩
      have hf : Step (setStatus s .integrating)
          (finalizeOkTarget (setStatus s .integrating)) :=
        Step.finalizeOk _ rfl (Or.inr ⟨k, hk, hks⟩)
      exact ⟨_, Relation.ReflTransGen.head hj
        (Relation.ReflTransGen.head hf Relation.ReflTransGen.refl), rfl⟩
    · intro hfail
      have hf : Step (setStatus s .integrating)
          (finalizeFailTarget (setStatus s .integrating)) :=
        Step.finalizeFail _ rfl hne hfail
      exact ⟨_, Relation.ReflTransGen.head hj
        (Relation.ReflTransGen.head hf Relation.ReflTransGen.refl), rfl⟩

/-- C4: in every reachable state of a Run, the emitted ProgressEvent
sequence numbers are strictly increasing, a `run_completed`/`run_error`
event can only sit at the end of the log, and once such an event has been
emitted the log never grows again. -/
theorem progress_events_ordered {req : List WorkerKind} {s : RunState}
    (h : Reaches (initRun req) s) :
    s.events.Pairwise (fun a b => a.seq < b.seq) ∧
    (∀ e ∈ s.events.dropLast, ¬ TermEvent e) ∧
    (∀ e ∈ s.events, TermEvent e → ∀ t, Reaches s t → t.events = s.events) := by
  have hi := inv_reachable h
  refine ⟨hi.seqSorted, hi.termLast, ?_⟩
  intro e he hterm t hst
  have hstat : s.status = .completed ∨ s.status = .failed := by
    by_contra hcon
    push_neg at hcon
    exact hi.termOnly hcon.1 hcon.2 e he hterm
  have hT : s.status.isTerminal = true := by
    rcases hstat with h1 | h1 <;> rw [h1] <;> rfl
  rw [reaches_of_terminal hT hst]

/-- C5: from every reachable non-terminal state, the explicit cancel
signal is enabled; it sets the Run to Cancelled, sets every non-terminal
WorkerTask to Cancelled, leaves no ActionPlan, and no step (in particular
no Integration) runs afterwards. -/
theorem cancel_run_spec {req : List WorkerKind} {s : RunState}
    (h : Reaches (initRun req) s) (hnt : s.status.isTerminal = false) :
    Step s (cancelRun s) ∧
    (cancelRun s).status = .cancelled ∧
    (∀ k, (s.tasks k).status.isTerminal = false →
      ((cancelRun s).tasks k).status = .cancelled) ∧
    (cancelRun s).plan = none ∧
    (∀ t, Reaches (cancelRun s) t → t = cancelRun s) := by
  have hi := inv_reachable h
  refine ⟨Step.cancel s hnt, rfl, ?_, ?_, ?_⟩
  · intro k hk
    simp [hk]
  · exact hi.planNone (not_terminal_cases hnt).1
  · intro t ht
    exact reaches_of_terminal rfl ht

/-- C6: the Integrator is deterministic — any two executions of the same
Run that complete with the same per-kind Worker results carry identical
ActionPlans (same items in the same order), independently of the
interleaving. -/
theorem integration_deterministic {req : List WorkerKind}
    {s1 s2 : RunState} (h1 : Reaches (initRun req) s1)
    (h2 : Reaches (initRun req) s2) (hc1 : s1.status = .completed)
    (hc2 : s2.status = .completed)
    (hres : ∀ k, (s1.tasks k).result = (s2.tasks k).result) :
    s1.plan = s2.plan := by
  have e1 := ((inv_reachable h1).completedInv hc1).1
  have e2 := ((inv_reachable h2).completedInv hc2).1
  have hreq : s1.requested = s2.requested := by
    rw [reaches_requested h1, reaches_requested h2]
  have hcol : collectInsights s1 = collectInsights s2 := by
    unfold collectInsights
    congr 1
    funext k
    rw [hreq, hres k]
  rw [e1, e2, hcol]

/-- C9: a Run submitted with zero requested workers can complete
immediately with an empty ActionPlan, and no reachable state of such a Run
is ever Failed. -/
theorem zero_workers_completes :
    (∃ t, Reaches (initRun []) t ∧ t.status = .completed ∧
      t.plan = some []) ∧
    (∀ s, Reaches (initRun []) s → s.status ≠ .failed) := by
  constructor
  · refine ⟨finalizeOkTarget (setStatus (setStatus (initRun []) .running) .integrating),
      ?_, rfl, ?_⟩
    · refine Relation.ReflTransGen.head (Step.start _ rfl) ?_
      refine Relation.ReflTransGen.head (Step.join _ rfl ?_) ?_
      · intro k hk
        simp [initRun] at hk
      · exact Relation.ReflTransGen.head
          (Step.finalizeOk _ rfl (Or.inl rfl)) Relation.ReflTransGen.refl
    · rfl
  · intro s hs hf
    have hfi := (inv_reachable hs).failedInv hf
    exact hfi.1 (reaches_requested hs)

/-! ## A concrete execution used by the witnesses -/

/-- A sample recommendation (the Meta-Description item of the mock
results page). -/
def recSample : Recommendation :=
  ⟨"technical", "Add Meta Description",
    "Add a 150-160 character meta description", 4, 2⟩

/-- A sample Insight produced by the keyword Worker. -/
def insSample : Insight := ⟨.keyword, [recSample]⟩

/-- Sample Run: submission with one requested worker. -/
def sRun0 : RunState := initRun [WorkerKind.keyword]

/-- Sample Run after launch. -/
def sRun1 : RunState := setStatus sRun0 .running

/-- Sample Run after the keyword WorkerTask starts. -/
def sRun2 : RunState := setTask sRun1 .keyword ⟨.running, none⟩

/-- Sample Run after the keyword WorkerTask completes. -/
def sRun3 : RunState :=
  emit (setTask sRun2 .keyword ⟨.completed, some insSample⟩) .agentCompleted

/-- Sample Run at the join barrier. -/
def sRun4 : RunState := setStatus sRun3 .integrating

/-- Sample Run finalized as Completed. -/
def sRun5 : RunState := finalizeOkTarget sRun4

/-- The sample trace is a real execution of the Dispatcher. -/
theorem sample_reaches : Reaches (initRun [WorkerKind.keyword]) sRun5 := by
  have h1 : Step sRun0 sRun1 := Step.start sRun0 rfl
  have h2 : Step sRun1 sRun2 :=
    Step.taskStart sRun1 .keyword rfl (by decide) rfl
  have h3 : Step sRun2 sRun3 :=
    Step.taskComplete sRun2 .keyword insSample rfl (by decide) rfl rfl
  have h4 : Step sRun3 sRun4 := Step.join sRun3 rfl (by decide)
  have h5 : Step sRun4 sRun5 :=
    Step.finalizeOk sRun4 rfl (Or.inr ⟨.keyword, by decide, by decide⟩)
  exact Relation.ReflTransGen.head h1 (Relation.ReflTransGen.head h2
    (Relation.ReflTransGen.head h3 (Relation.ReflTransGen.head h4
      (Relation.ReflTransGen.head h5 Relation.ReflTransGen.refl))))

/-- The running prefix of the sample trace. -/
theorem sample_reaches_running : Reaches (initRun [WorkerKind.keyword]) sRun1 :=
  Relation.ReflTransGen.head (Step.start sRun0 rfl) Relation.ReflTransGen.refl

/-- Witness for C1 at the sample execution. -/
theorem run_final_status_rule_witness :
    sRun5.requested ≠ [] ∧
    ((sRun5.status = .completed ∨ sRun5.status = .failed) →
      ((sRun5.status = .completed ↔
          ∃ k ∈ sRun5.requested, (sRun5.tasks k).status = .completed) ∧
        (sRun5.status = .failed ↔
          ∀ k ∈ sRun5.requested, (sRun5.tasks k).status = .failed))) :=
  ⟨by decide, (run_final_status_rule sample_reaches (by decide)).1⟩

/-- Witness for C3 at the sample execution. -/
theorem run_terminal_implies_tasks_terminal_witness :
    (sRun5.status = .completed ∨ sRun5.status = .failed) ∧
    ∀ k ∈ sRun5.requested,
      (sRun5.tasks k).status = .completed ∨ (sRun5.tasks k).status = .failed :=
  ⟨Or.inl rfl,
    run_terminal_implies_tasks_terminal sample_reaches (Or.inl rfl)⟩

/-- Witness for C4 at the sample execution. -/
theorem progress_events_ordered_witness :
    sRun5.events.Pairwise (fun a b => a.seq < b.seq) ∧
    (∀ e ∈ sRun5.events.dropLast, ¬ TermEvent e) ∧
    (∀ e ∈ sRun5.events, TermEvent e →
      ∀ t, Reaches sRun5 t → t.events = sRun5.events) :=
  progress_events_ordered sample_reaches

/-- Witness for C5: cancelling the sample Run while Running. -/
theorem cancel_run_spec_witness :
    sRun1.status.isTerminal = false ∧
    (Step sRun1 (cancelRun sRun1) ∧
      (cancelRun sRun1).status = .cancelled ∧
      (∀ k, (sRun1.tasks k).status.isTerminal = false →
        ((cancelRun sRun1).tasks k).status = .cancelled) ∧
      (cancelRun sRun1).plan = none ∧
      (∀ t, Reaches (cancelRun sRun1) t → t = cancelRun sRun1)) :=
  ⟨rfl, cancel_run_spec sample_reaches_running rfl⟩

/-- Witness for C6 at the sample execution. -/
theorem integration_deterministic_witness :
    sRun5.status = .completed ∧ sRun5.plan = sRun5.plan :=
  ⟨rfl, integration_deterministic sample_reaches sample_reaches
    rfl rfl (fun _ => rfl)⟩

/-- Witness for C9: the zero-worker Run itself is reachable and not
Failed. -/
theorem zero_workers_completes_witness :
    (initRun []).status ≠ .failed :=
  zero_workers_completes.2 (initRun []) Relation.ReflTransGen.refl

/-! ## ProviderClient retry policy -/

/-- Modelled from the spec: the classified outcome of one provider call
attempt — success, RetryableError (timeout/429/5xx) or FatalError
(auth failure, malformed request). -/
inductive CallOutcome where
  | ok
  | retryable
  | fatal
deriving DecidableEq

/-- Modelled from the spec: the result of a ProviderClient call, recording
the number of attempts performed. -/
inductive CallResult where
  | success (attempts : Nat)
  | fatalError (attempts : Nat)
  | exhausted (attempts : Nat)
deriving DecidableEq

/-- Modelled from the spec: capped exponential backoff — the base delay
doubles on each retry and is capped; `backoffDelay base cap i` is the
delay after the (i+1)-th failed attempt. -/
def backoffDelay (base cap i : Nat) : Nat :=
  min (base * 2 ^ i) cap

/-- Modelled from the spec: the ProviderClient retry loop (missing from
the sources) — retry on RetryableError up to the attempt cap, stop on
success, never retry a FatalError. `outcome i` is the provider's outcome
of attempt `i` (1-based); `fuel` is the number of attempts left. -/
def retryFrom (outcome : Nat → CallOutcome) : Nat → Nat → CallResult
  | attempt, 0 => .exhausted (attempt - 1)
  | attempt, fuel + 1 =>
    match outcome attempt with
    | .ok => .success attempt
    | .fatal => .fatalError attempt
    | .retryable => retryFrom outcome (attempt + 1) fuel

/-- Modelled from the spec: a ProviderClient call with a configured
maximum number of attempts. -/
def callWithRetry (outcome : Nat → CallOutcome) (maxAttempts : Nat) :
    CallResult :=
  retryFrom outcome 1 maxAttempts

/-- If every attempt in the window is retryable, the loop uses its whole
budget and reports exhaustion at the cap. -/
theorem retryFrom_all_retryable (outcome : Nat → CallOutcome) :
    ∀ fuel attempt,
      (∀ i, attempt ≤ i → i < attempt + fuel → outcome i = .retryable) →
      retryFrom outcome attempt fuel = .exhausted (attempt + fuel - 1) := by
  intro fuel
  induction fuel with
  | zero => intro attempt _; rfl
  | succ fuel ih =>
      intro attempt h
      have h0 : outcome attempt = .retryable :=
        h attempt le_rfl (by omega)
      have hrec := ih (attempt + 1) (fun i h1 h2 => h i (by omega) (by omega))
      show (match outcome attempt with
        | .ok => CallResult.success attempt
        | .fatal => CallResult.fatalError attempt
        | .retryable => retryFrom outcome (attempt + 1) fuel) =
          .exhausted (attempt + (fuel + 1) - 1)
      have harith : attempt + 1 + fuel - 1 = attempt + (fuel + 1) - 1 := by
        omega
      rw [h0, hrec, harith]

/-- C7: the ProviderClient retries RetryableErrors up to the configured
attempt cap (3 to 5), never retries a FatalError — a fatal first attempt
propagates immediately with attempt count 1 — and its backoff delay
doubles on each retry, capped. -/
theorem provider_retry_policy (outcome : Nat → CallOutcome)
    (maxAttempts base cap : Nat) (h3 : 3 ≤ maxAttempts)
    (h5 : maxAttempts ≤ 5) :
    ((∀ i, 1 ≤ i → i ≤ maxAttempts → outcome i = .retryable) →
      callWithRetry outcome maxAttempts = .exhausted maxAttempts) ∧
    (outcome 1 = .fatal →
      callWithRetry outcome maxAttempts = .fatalError 1) ∧
    (∀ i, backoffDelay base cap (i + 1) =
      min (2 * backoffDelay base cap i) cap) := by
  refine ⟨?_, ?_, ?_⟩
  · intro hall
    have h := retryFrom_all_retryable outcome maxAttempts 1
      (fun i h1 h2 => hall i h1 (by omega))
    have harith : 1 + maxAttempts - 1 = maxAttempts := by omega
    rw [callWithRetry, h, harith]
  · intro hf
    obtain ⟨m, rfl⟩ : ∃ m, maxAttempts = m + 1 := ⟨maxAttempts - 1, by omega⟩
    show (match outcome 1 with
      | .ok => CallResult.success 1
      | .fatal => CallResult.fatalError 1
      | .retryable => retryFrom outcome 2 m) = .fatalError 1
    rw [hf]
  · intro i
    unfold backoffDelay
    rcases le_total (base * 2 ^ i) cap with hle | hle
    · rw [min_eq_left hle, pow_succ]
      ring_nf
    · have hmono : base * 2 ^ i ≤ base * 2 ^ (i + 1) :=
        Nat.mul_le_mul_left base (Nat.pow_le_pow_right (by norm_num) (Nat.le_succ i))
      rw [min_eq_right hle, min_eq_right (Nat.le_mul_of_pos_left cap (by norm_num)),
        min_eq_right (le_trans hle hmono)]

/-- Witness for C7: a provider failing retryably on every attempt is
retried to the cap of 3; a fatal first attempt propagates at attempt 1. -/
theorem provider_retry_policy_witness :
    (3 ≤ 3 ∧ 3 ≤ 5) ∧
    callWithRetry (fun _ => CallOutcome.retryable) 3 = .exhausted 3 ∧
    callWithRetry (fun _ => CallOutcome.fatal) 3 = .fatalError 1 :=
  ⟨⟨by decide, by decide⟩,
    (provider_retry_policy (fun _ => .retryable) 3 1 8 (by decide)
      (by decide)).1 (fun _ _ _ => rfl),
    (provider_retry_policy (fun _ => .fatal) 3 1 8 (by decide)
      (by decide)).2.1 rfl⟩

/-! ## Frontend submission mock (frontend/src/pages/Analysis.tsx) -/

/-- Decimal digit character, as produced by the JS template-literal
rendering of a number. -/
def decDigitChar (d : Nat) : Char :=
  match d with
  | 0 => '0'
  | 1 => '1'
  | 2 => '2'
  | 3 => '3'
  | 4 => '4'
  | 5 => '5'
  | 6 => '6'
  | 7 => '7'
  | 8 => '8'
  | 9 => '9'
  | _ => '?'

/-- Little-endian decimal digits of `n`, with `fuel ≥ n` as the structural
recursion budget. -/
def decDigits : Nat → Nat → List Nat
  | 0, _ => []
  | _ + 1, 0 => []
  | fuel + 1, n + 1 => (n + 1) % 10 :: decDigits fuel ((n + 1) / 10)

/-- Decimal rendering of a natural number, as JS string interpolation
renders an integer-valued number. -/
def natToDec (n : Nat) : String :=
  if n = 0 then "0" else ⟨((decDigits n n).map decDigitChar).reverse⟩

/-- Translated from the source (frontend/src/pages/Analysis.tsx,
startAnalysis): the mock submission response
`{run_id: run_${Date.now()}, status: 'pending', message: ...}`, as a
function of the `Date.now()` timestamp observed by the call. -/
structure StartAnalysisResponse where
  run_id : String
  status : String
  message : String
deriving DecidableEq

/-- Translated from the source: `startAnalysis` returns
`run_id = "run_" + Date.now()`. -/
def startAnalysis (now : Nat) : StartAnalysisResponse :=
  ⟨"run_" ++ natToDec now, "pending", "Analysis started successfully"⟩

/-- The run ids returned for a sequence of submissions whose `Date.now()`
timestamps are the given list. -/
def runIdsOf (times : List Nat) : List String :=
  times.map fun t => (startAnalysis t).run_id

/-- All digits produced by `decDigits` are below 10. -/
theorem decDigits_lt : ∀ fuel n, ∀ d ∈ decDigits fuel n, d < 10 := by
  intro fuel
  induction fuel with
  | zero => intro n d hd; simp [decDigits] at hd
  | succ fuel ih =>
      intro n d hd
      cases n with
      | zero => simp [decDigits] at hd
      | succ n =>
          rcases List.mem_cons.mp hd with h | h
          · rw [h]; exact Nat.mod_lt _ (by norm_num)
          · exact ih _ d h

/-- Round trip: `decDigits` are genuine decimal digits of `n`. -/
theorem ofDigits_decDigits : ∀ fuel n, n ≤ fuel →
    Nat.ofDigits 10 (decDigits fuel n) = n := by
  intro fuel
  induction fuel with
  | zero =>
      intro n h
      interval_cases n
      rfl
  | succ fuel ih =>
      intro n h
      cases n with
      | zero => rfl
      | succ n =>
          have hdiv : (n + 1) / 10 ≤ fuel := by
            have := Nat.div_lt_self (Nat.succ_pos n) (by norm_num : 1 < 10)
            omega
          show Nat.ofDigits 10 ((n + 1) % 10 :: decDigits fuel ((n + 1) / 10)) = n + 1
          rw [Nat.ofDigits_cons, ih _ hdiv]
          have := Nat.mod_add_div (n + 1) 10
          omega

/-- Reading the code point back undoes `decDigitChar` on digits. -/
theorem toNat_decDigitChar (d : Nat) (h : d < 10) :
    (decDigitChar d).toNat - 48 = d := by
  interval_cases d <;> rfl

/-- `decDigitChar` is injective on digit lists. -/
theorem map_decDigitChar_inj {l1 l2 : List Nat}
    (h1 : ∀ d ∈ l1, d < 10) (h2 : ∀ d ∈ l2, d < 10)
    (he : l1.map decDigitChar = l2.map decDigitChar) : l1 = l2 := by
  have hmm := congrArg (List.map (fun c : Char => c.toNat - 48)) he
  rw [List.map_map, List.map_map] at hmm
  calc l1 = l1.map (fun d => (decDigitChar d).toNat - 48) := by
            rw [List.map_congr_left (fun d hd => toNat_decDigitChar d (h1 d hd))]
            exact (List.map_id l1).symm
    _ = l2.map (fun d => (decDigitChar d).toNat - 48) := hmm
    _ = l2 := by
            rw [List.map_congr_left (fun d hd => toNat_decDigitChar d (h2 d hd))]
            exact List.map_id l2

/-- The decimal rendering is injective. -/
theorem natToDec_injective : Function.Injective natToDec := by
  intro a b h
  unfold natToDec at h
  by_cases ha : a = 0 <;> by_cases hb : b = 0
  · rw [ha, hb]
  · rw [if_pos ha, if_neg hb] at h
    have hdata : (String.mk ['0']).data =
        (String.mk ((decDigits b b).map decDigitChar).reverse).data := by
      rw [← h]
    simp only [String.data] at hdata
    have hrev : (decDigits b b).map decDigitChar = ['0'] := by
      have := congrArg List.reverse hdata
      simpa using this.symm
    have hdig : decDigits b b = [0] :=
      map_decDigitChar_inj (decDigits_lt b b) (by simp) (by rw [hrev]; rfl)
    have hround := ofDigits_decDigits b b le_rfl
    rw [hdig] at hround
    have h00 : Nat.ofDigits 10 [0] = 0 := by decide
    rw [h00] at hround
    exact absurd hround.symm hb
  · rw [if_neg ha, if_pos hb] at h
    have hdata : (String.mk ((decDigits a a).map decDigitChar).reverse).data =
        (String.mk ['0']).data := by
      rw [h]
    simp only [String.data] at hdata
    have hrev : (decDigits a a).map decDigitChar = ['0'] := by
      have := congrArg List.reverse hdata
      simpa using this
    have hdig : decDigits a a = [0] :=
      map_decDigitChar_inj (decDigits_lt a a) (by simp) (by rw [hrev]; rfl)
    have hround := ofDigits_decDigits a a le_rfl
    rw [hdig] at hround
    have h00 : Nat.ofDigits 10 [0] = 0 := by decide
    rw [h00] at hround
    exact absurd hround.symm ha
  · rw [if_neg ha, if_neg hb] at h
    have hdata := congrArg String.data h
    simp only [String.data] at hdata
    have hmap : (decDigits a a).map decDigitChar =
        (decDigits b b).map decDigitChar := by
      have := congrArg List.reverse hdata
      simpa using this
    have hdig := map_decDigitChar_inj (decDigits_lt a a) (decDigits_lt b b) hmap
    have hra := ofDigits_decDigits a a le_rfl
    have hrb := ofDigits_decDigits b b le_rfl
    rw [← hra, ← hrb, hdig]

/-- Prepending the fixed prefix keeps distinctness. -/
theorem append_run_prefix_inj {s t : String}
    (h : "run_" ++ s = "run_" ++ t) : s = t := by
  have hdata := congrArg String.data h
  rw [String.data_append, String.data_append] at hdata
  have := List.append_cancel_left hdata
  cases s with
  | mk d1 =>
      cases t with
      | mk d2 =>
          simp only [String.data] at this
          rw [this]

/-! ## Theorems: run-id uniqueness (C8) -/

/-- C8 counterexample: two distinct submissions (indices 0 and 1 of the
submission sequence) whose `Date.now()` timestamps coincide receive equal
run ids, so the returned run ids are not unique. -/
theorem run_ids_not_unique_counterexample : ¬ (runIdsOf [5, 5]).Nodup := by
  decide

/-- C8 (amended): the mock submission interface derives the run id from
the `Date.now()` timestamp alone, so two submissions observing distinct
timestamps receive distinct run ids; only same-millisecond submissions
can collide. -/
theorem run_ids_distinct_timestamps {t1 t2 : Nat} (h : t1 ≠ t2) :
    (startAnalysis t1).run_id ≠ (startAnalysis t2).run_id := by
  intro he
  exact h (natToDec_injective (append_run_prefix_inj he))

/-- Witness for the amended C8 at timestamps 5 and 6. -/
theorem run_ids_distinct_timestamps_witness :
    (5 : Nat) ≠ 6 ∧ (startAnalysis 5).run_id ≠ (startAnalysis 6).run_id :=
  ⟨by decide, run_ids_distinct_timestamps (by decide)⟩

/-! ## Frontend submit handler (frontend/src/pages/Analysis.tsx) -/

/-- Translated from the source: the analysis form state `{url, locale}`. -/
structure AnalysisForm where
  url : String
  locale : String
deriving DecidableEq

/-- The observable effect of the submit handler: either it returned early
(after a toast error) without starting anything, or it invoked
`mutation.mutate(form)` with the given form. -/
inductive SubmitEffect where
  | rejected
  | mutate (form : AnalysisForm)
deriving DecidableEq

/-- Translated from the source (handleSubmit, frontend/src/pages/
Analysis.tsx lines 48-65): an empty `form.url` returns early; an
unparseable URL (JS `new URL` throwing, abstracted as the predicate
`parseOk`) returns early; otherwise `mutation.mutate(form)` is invoked.
The handler never writes the form state, so it is returned unchanged. -/
def handleSubmit (parseOk : String → Bool) (form : AnalysisForm) :
    SubmitEffect × AnalysisForm :=
  if form.url = "" then (.rejected, form)
  else if parseOk form.url then (.mutate form, form)
  else (.rejected, form)

/-- C10: submitting the analysis form invokes the analysis mutation
exactly when the URL field is non-empty and parses as a valid URL, and in
every case the form state is left unchanged. -/
theorem handle_submit_guard (parseOk : String → Bool) (form : AnalysisForm) :
    ((handleSubmit parseOk form).1 = .mutate form ↔
      form.url ≠ "" ∧ parseOk form.url = true) ∧
    (handleSubmit parseOk form).2 = form := by
  unfold handleSubmit
  by_cases h1 : form.url = "" <;> by_cases h2 : parseOk form.url <;>
    simp [h1, h2]
